import Mathlib

/-!
# Verification development for the aintrade core

Shallow embedding, over `ℚ` (prices, indicator values) and `ℤ` (epoch-millisecond
timestamps), of the candle store, backfill synchronizer, indicator engine
(EMA, ATR, supertrend recurrence), multi-timeframe aligner, signal decision
function, signal store, and backtest portfolio simulator of the repository,
together with theorems settling the specification claims about them.
-/

namespace Aintrade

/-- One latest indicator-augmented candle, as read by
`EnhancedTrendMasterStrategy.get_signal` (the columns produced by
`prepare_data` that the decision function consumes). -/
structure LatestCandle where
  ema9 : ℚ
  ema20 : ℚ
  ema50 : ℚ
  supertrend_direction : ℤ
  rsi14 : ℚ
  volume_avg20 : ℚ
  close : ℚ
  vwap_approx : ℚ
  open_time : ℤ
deriving DecidableEq

/-- The `latest_candles` map restricted to the three timeframes the strategy
requires (`self.timeframes = ["15m", "1h", "4h"]`), all present. -/
structure LatestCandles where
  c15m : LatestCandle
  c1h : LatestCandle
  c4h : LatestCandle
deriving DecidableEq

/-- The three signal kinds returned by `get_signal`. -/
inductive TradeSignal where
  | BUY : TradeSignal
  | SELL : TradeSignal
  | HOLD : TradeSignal
deriving DecidableEq

/-- The BUY conditions of `get_signal` (source lines 90-97):
`ema_bullish and supertrend_bullish and rsi_ok_buy and volume_ok_buy and vwap_ok_buy`. -/
def buy_conditions (lc : LatestCandles) : Bool :=
  (decide (lc.c4h.ema9 > lc.c4h.ema20 ∧ lc.c4h.ema20 > lc.c4h.ema50 ∧
           lc.c1h.ema9 > lc.c1h.ema20 ∧ lc.c1h.ema20 > lc.c1h.ema50)) &&
  (decide (lc.c4h.supertrend_direction = 1 ∧ lc.c1h.supertrend_direction = 1 ∧
           lc.c15m.supertrend_direction = 1)) &&
  (decide (45 ≤ lc.c15m.rsi14 ∧ lc.c15m.rsi14 ≤ 65)) &&
  (decide (lc.c15m.volume_avg20 > 1/10)) &&
  (decide (lc.c15m.close > lc.c15m.vwap_approx))

/-- The SELL conditions of `get_signal` (source lines 104-111):
`ema_bearish and supertrend_bearish and rsi_ok_sell and volume_ok_sell and vwap_ok_sell`. -/
def sell_conditions (lc : LatestCandles) : Bool :=
  (decide (lc.c4h.ema9 < lc.c4h.ema20 ∧ lc.c4h.ema20 < lc.c4h.ema50 ∧
           lc.c1h.ema9 < lc.c1h.ema20 ∧ lc.c1h.ema20 < lc.c1h.ema50)) &&
  (decide (lc.c4h.supertrend_direction = -1 ∧ lc.c1h.supertrend_direction = -1 ∧
           lc.c15m.supertrend_direction = -1)) &&
  (decide (35 ≤ lc.c15m.rsi14 ∧ lc.c15m.rsi14 ≤ 55)) &&
  (decide (lc.c15m.volume_avg20 < -(1/10))) &&
  (decide (lc.c15m.close < lc.c15m.vwap_approx))

/-- `EnhancedTrendMasterStrategy.get_signal` on a complete `latest_candles` map:
BUY branch first, then SELL branch, else `('HOLD', None, None)`.  A non-HOLD
return carries the entry timeframe `"15m"` and the 15m candle's `open_time`. -/
def get_signal (lc : LatestCandles) : TradeSignal × Option String × Option ℤ :=
  if buy_conditions lc then (TradeSignal.BUY, some "15m", some lc.c15m.open_time)
  else if sell_conditions lc then (TradeSignal.SELL, some "15m", some lc.c15m.open_time)
  else (TradeSignal.HOLD, none, none)

/-! ## Supertrend (`EnhancedTrendMasterStrategy._calculate_supertrend`)

The supertrend pipeline reads the `high`/`low`/`close` columns of a candle
series, computes the `ta` library's average true range (Wilder smoothing,
seeded at index `window - 1` by the mean of the first `window` true ranges,
and `0` before that, mirroring `np.zeros` initialization), forms basic bands
`midpoint ± multiplier * atr`, and then runs the stateful recurrence of
source lines 23-36.  Pandas column access at index `i` is embedded as
indexed functions over the row list (out-of-range reads default to `0` and
are never exercised by the theorems). -/

/-- The `high`/`low`/`close` columns of one candle row. -/
structure HLC where
  high : ℚ
  low : ℚ
  close : ℚ
deriving DecidableEq

/-- Default row used for out-of-range indexed access. -/
def hlc0 : HLC := ⟨0, 0, 0⟩

def highAt (rows : List HLC) (i : ℕ) : ℚ := (rows.getD i hlc0).high

def lowAt (rows : List HLC) (i : ℕ) : ℚ := (rows.getD i hlc0).low

def closeAt (rows : List HLC) (i : ℕ) : ℚ := (rows.getD i hlc0).close

/-- True range, as computed by `ta.volatility.average_true_range`:
`max(high - low, |high - prev_close|, |low - prev_close|)`, where at index 0
the `prev_close` terms are absent (pandas `max` skips the NaN of `shift(1)`). -/
def trueRange (rows : List HLC) : ℕ → ℚ
  | 0 => highAt rows 0 - lowAt rows 0
  | i + 1 =>
      max (highAt rows (i + 1) - lowAt rows (i + 1))
        (max |highAt rows (i + 1) - closeAt rows i| |lowAt rows (i + 1) - closeAt rows i|)

/-- The `ta` library ATR: `0` before index `w - 1` (the `np.zeros` warm-up),
the simple mean of the first `w` true ranges at index `w - 1`, and Wilder
smoothing `(atr[i-1] * (w-1) + tr[i]) / w` afterwards. -/
def atr (rows : List HLC) (w : ℕ) : ℕ → ℚ
  | 0 =>
      if 1 < w then 0
      else ((List.range w).map (trueRange rows)).sum / (w : ℚ)
  | i + 1 =>
      if i + 2 < w then 0
      else if i + 2 = w then ((List.range w).map (trueRange rows)).sum / (w : ℚ)
      else (atr rows w i * ((w : ℚ) - 1) + trueRange rows (i + 1)) / (w : ℚ)

/-- Basic upper band `(high + low) / 2 + m * atr` (source line 21). -/
def basicUpper (rows : List HLC) (w : ℕ) (m : ℚ) (i : ℕ) : ℚ :=
  (highAt rows i + lowAt rows i) / 2 + m * atr rows w i

/-- Basic lower band `(high + low) / 2 - m * atr` (source line 22). -/
def basicLower (rows : List HLC) (w : ℕ) (m : ℚ) (i : ℕ) : ℚ :=
  (highAt rows i + lowAt rows i) / 2 - m * atr rows w i

/-- The mutable per-row state of the supertrend loop: the stored
`upper_band` and `lower_band` cells (which the loop may overwrite with the
previous row's values) and the `in_uptrend` flag. -/
structure STState where
  upper_band : ℚ
  lower_band : ℚ
  in_uptrend : Bool
deriving DecidableEq

/-- The supertrend recurrence of source lines 23-36.  Index 0 keeps its basic
bands and the initialized `in_uptrend = True`.  For index `i+1`:
if `close > upper_band[i]` the trend is set up (basic bands kept);
elif `close < lower_band[i]` the trend is set down (basic bands kept);
else the trend is carried over and the active band is ratcheted:
in an uptrend a lower basic lower band is replaced by the previous stored
lower band, in a downtrend a higher basic upper band is replaced by the
previous stored upper band. -/
def stState (rows : List HLC) (w : ℕ) (m : ℚ) : ℕ → STState
  | 0 => ⟨basicUpper rows w m 0, basicLower rows w m 0, true⟩
  | i + 1 =>
      let prev := stState rows w m i
      let bu := basicUpper rows w m (i + 1)
      let bl := basicLower rows w m (i + 1)
      let c := closeAt rows (i + 1)
      if prev.upper_band < c then ⟨bu, bl, true⟩
      else if c < prev.lower_band then ⟨bu, bl, false⟩
      else
        ⟨if prev.in_uptrend = false ∧ prev.upper_band < bu then prev.upper_band else bu,
         if prev.in_uptrend = true ∧ bl < prev.lower_band then prev.lower_band else bl,
         prev.in_uptrend⟩

/-- The stored `supertrend` column: active band per direction (source line 38). -/
def supertrendValue (rows : List HLC) (w : ℕ) (m : ℚ) (i : ℕ) : ℚ :=
  if (stState rows w m i).in_uptrend then (stState rows w m i).lower_band
  else (stState rows w m i).upper_band

/-- The stored `supertrend_direction` column: `1` if `in_uptrend` else `-1`
(source line 39). -/
def supertrendDirCol (rows : List HLC) (w : ℕ) (m : ℚ) (i : ℕ) : ℤ :=
  if (stState rows w m i).in_uptrend then 1 else -1

/-- The step into row `i` was the carry-over case of the recurrence:
`close[i]` neither above the previous stored upper band nor below the
previous stored lower band. -/
def carryOver (rows : List HLC) (w : ℕ) (m : ℚ) (i : ℕ) : Prop :=
  closeAt rows i ≤ (stState rows w m (i - 1)).upper_band ∧
  (stState rows w m (i - 1)).lower_band ≤ closeAt rows i

instance (rows : List HLC) (w : ℕ) (m : ℚ) (i : ℕ) :
    Decidable (carryOver rows w m i) := by
  unfold carryOver; infer_instance

/-- A 10-row candle series (long enough for the source's ATR window of 10)
whose first three rows exhibit two consecutive fresh up-triggers with a
widening-then-narrowing midpoint. -/
def exRowsST : List HLC :=
  [⟨10, 10, 10⟩, ⟨20, 20, 20⟩, ⟨21, 9, 21⟩, ⟨21, 9, 15⟩, ⟨21, 9, 15⟩,
   ⟨21, 9, 15⟩, ⟨21, 9, 15⟩, ⟨21, 9, 15⟩, ⟨21, 9, 15⟩, ⟨21, 9, 15⟩]

/-- A constant 10-row candle series: every step is a carry-over step. -/
def rowsConst : List HLC :=
  [⟨10, 10, 10⟩, ⟨10, 10, 10⟩, ⟨10, 10, 10⟩, ⟨10, 10, 10⟩, ⟨10, 10, 10⟩,
   ⟨10, 10, 10⟩, ⟨10, 10, 10⟩, ⟨10, 10, 10⟩, ⟨10, 10, 10⟩, ⟨10, 10, 10⟩]

/-! ## CandleStore (`create_kline_model` rows, `session.merge` upsert) and the
backfill loop of `run_historical_klines_agent` -/

/-- One stored k-line row: the columns of the dynamically created model in
`models/dynamic_models.py` / `historical_klines_agent.py`, with `open_time`
as primary key. -/
structure Kline where
  open_time : ℤ
  «open» : ℚ
  high : ℚ
  low : ℚ
  close : ℚ
  volume : ℚ
  close_time : ℤ
  quote_asset_volume : ℚ
  number_of_trades : ℤ
  taker_buy_base_asset_volume : ℚ
  taker_buy_quote_asset_volume : ℚ
deriving DecidableEq

/-- Default k-line used for out-of-range access. -/
def kline0 : Kline := ⟨0, 0, 0, 0, 0, 0, 0, 0, 0, 0, 0⟩

/-- `session.merge(kline_obj)` on the primary key `open_time`: if a row with
the same key exists its non-key fields are overwritten with the new values
(the key is equal, so the whole row becomes `c`), otherwise the row is
inserted. -/
def upsert (store : List Kline) (c : Kline) : List Kline :=
  if store.any (fun r => r.open_time = c.open_time) then
    store.map (fun r => if r.open_time = c.open_time then c else r)
  else store ++ [c]

/-- Binance page capacity (`KLINE_LIMIT = 1000`). -/
def KLINE_LIMIT : ℕ := 1000

/-- Milliseconds per day (`timedelta(days=1)`). -/
def MS_PER_DAY : ℤ := 86400000

/-- The starting watermark of the backfill loop (source lines 115-124):
`last stored open_time + 1` when the table is non-empty (the query orders by
`open_time` descending and takes the first row, i.e. the maximum key), else
`now - backfill_days` converted to epoch milliseconds. -/
def initWatermark (store : List Kline) (now_ms backfill_days : ℤ) : ℤ :=
  match (store.map (fun r => r.open_time)).max? with
  | some t => t + 1
  | none => now_ms - backfill_days * MS_PER_DAY

/-- The `while True` fetch/upsert loop of source lines 126-147, with the page
fetch abstracted as a function of the requested start time and an explicit
fuel bound standing for the unbounded iteration.  Each pass: fetch a page at
the watermark; stop if it is empty; otherwise upsert every row in order,
advance the watermark to `last fetched open_time + 1`, and stop if the page
held fewer than `KLINE_LIMIT` rows.  Returns the final store and watermark. -/
def backfillLoop (fetch : ℤ → List Kline) : ℕ → List Kline → ℤ → List Kline × ℤ
  | 0, store, start => (store, start)
  | fuel + 1, store, start =>
      let page := fetch start
      if page = [] then (store, start)
      else
        let store2 := page.foldl upsert store
        let start2 := (page.getLastD kline0).open_time + 1
        if page.length < KLINE_LIMIT then (store2, start2)
        else backfillLoop fetch fuel store2 start2

/-- Three stored rows with open_times `[0, 1, 2]` (spec Scenario 1). -/
def krow0 : Kline := ⟨0, 1, 2, 1, 2, 5, 99, 7, 3, 2, 1⟩

def krow1 : Kline := ⟨1, 2, 3, 2, 3, 6, 199, 8, 4, 3, 2⟩

def krow2 : Kline := ⟨2, 3, 4, 3, 4, 7, 299, 9, 5, 4, 3⟩

def store3 : List Kline := [krow0, krow1, krow2]

/-! ## Signal store (`SignalAgent._store_signal`) -/

/-- One stored `Signal` row (`models/signals_models.py` fields used by the
dedup key plus the signal kind). -/
structure StoredSignal where
  symbol : String
  signal : String
  strategy : String
  timeframe : String
  kline_open_time : ℤ
deriving DecidableEq

/-- The dedup key comparison of `_store_signal`'s `filter_by`:
`(symbol, strategy, timeframe, kline_open_time)`. -/
def sameKeyB (r : StoredSignal) (sym strat tf : String) (klt : ℤ) : Bool :=
  decide (r.symbol = sym ∧ r.strategy = strat ∧ r.timeframe = tf ∧ r.kline_open_time = klt)

/-- `SignalAgent._store_signal`: query for an existing row with the same
`(symbol, strategy, timeframe, kline_open_time)` key; if none is found a new
row is added and committed, otherwise nothing is written.  (The internal
logging error raised after the commit is caught inside the method and never
reaches the caller, so the stored state is exactly this.) -/
def store_signal (store : List StoredSignal) (sym sig strat tf : String) (klt : ℤ) :
    List StoredSignal :=
  if store.any (fun r => sameKeyB r sym strat tf klt) then store
  else store ++ [⟨sym, sig, strat, tf, klt⟩]

/-! ## EMA columns of `prepare_data`

`ta.trend.ema_indicator(close, window=p)` evaluates
`close.ewm(span=p, min_periods=p, adjust=False).mean()`.  With
`adjust=False`, pandas defines the output by the recurrence
`y[0] = x[0]`, `y[t] = (1 - alpha) * y[t-1] + alpha * x[t]` with
`alpha = 2 / (p + 1)`; `min_periods=p` masks the first `p - 1` outputs as
undefined (NaN). -/

/-- The pandas `ewm(adjust=False).mean()` recurrence at index `i` over the
close column (indexed access into the series). -/
def ewm_adjust_false (xs : List ℚ) (a : ℚ) : ℕ → ℚ
  | 0 => xs.getD 0 0
  | i + 1 => (1 - a) * ewm_adjust_false xs a i + a * xs.getD (i + 1) 0

/-- The `emaN` column written by `prepare_data` at index `i`: undefined (NaN)
for the first `p - 1` rows by `min_periods=p`, and the `adjust=False`
exponential recurrence with `alpha = 2 / (p + 1)` elsewhere. -/
def ema_column (closes : List ℚ) (p : ℕ) (i : ℕ) : Option ℚ :=
  if i + 1 < p then none
  else some (ewm_adjust_false closes (2 / ((p : ℚ) + 1)) i)

/-- Simple average of the first `p` closes. -/
def smaFirst (closes : List ℚ) (p : ℕ) : ℚ := (closes.take p).sum / (p : ℚ)

/-- Modelled from the spec: the "standard exponential moving average whose
recursion is seeded at index `p-1` by the simple average of the first `p`
closes" (spec section 4.2, EMA bullet), written to be compared with the
source's `ema_column`.  Below index `p-1` it holds the seed value; from
index `p-1` on it is the seed followed by the recurrence
`y[i] = alpha * x[i] + (1 - alpha) * y[i-1]`, `alpha = 2 / (p + 1)`. -/
def emaSpecSeeded (closes : List ℚ) (p : ℕ) : ℕ → ℚ
  | 0 => smaFirst closes p
  | i + 1 =>
      if i + 2 ≤ p then smaFirst closes p
      else (2 / ((p : ℚ) + 1)) * closes.getD (i + 1) 0 +
        (1 - 2 / ((p : ℚ) + 1)) * emaSpecSeeded closes p i

/-- The EMA recurrence seeded at index 0 by the first close, written as an
independent recursion (amended description of what the code computes). -/
def emaRecFrom0 (closes : List ℚ) (p : ℕ) : ℕ → ℚ
  | 0 => closes.getD 0 0
  | i + 1 => (2 / ((p : ℚ) + 1)) * closes.getD (i + 1) 0 +
      (1 - 2 / ((p : ℚ) + 1)) * emaRecFrom0 closes p i

/-- A 9-close series on which SMA seeding and first-value seeding differ. -/
def closes9 : List ℚ := 1 :: List.replicate 8 0

/-! ## Multi-timeframe aligner (`run_backtest` step 3)

`pd.merge_asof(df_15m, df_other, on='timestamp')` with the default backward
direction pairs every base row with the last other-series row whose
timestamp is `≤` the base row's timestamp (both inputs sorted ascending),
leaving NaN when no such row exists; the subsequent `dropna` removes the
base rows left unmatched by either coarser series. -/

/-- One indicator-augmented row of a timeframe series: its merge timestamp
and the indicator columns consumed downstream. -/
structure IndRow where
  timestamp : ℤ
  candle : LatestCandle
deriving DecidableEq

/-- The backward as-of lookup of `pd.merge_asof`: the last row of `others`
(sorted ascending) whose timestamp is `≤ t`, if any. -/
def lastLE (others : List IndRow) (t : ℤ) : Option IndRow :=
  (others.filter (fun r => decide (r.timestamp ≤ t))).getLast?

/-- One row of the aligned backtest frame: the base 15m row paired with the
as-of 1h and 4h rows. -/
structure AlignedRow where
  r15 : IndRow
  r1h : IndRow
  r4h : IndRow
deriving DecidableEq

/-- The aligned row produced for one base 15m row: the as-of 1h and 4h rows
at its timestamp, or nothing when either series has no eligible prior row
(the NaN cells removed by `dropna`). -/
def alignRow (o1h o4h : List IndRow) (b : IndRow) : Option AlignedRow :=
  match lastLE o1h b.timestamp, lastLE o4h b.timestamp with
  | some r1, some r4 => some ⟨b, r1, r4⟩
  | _, _ => none

/-- The two chained `merge_asof` calls followed by `dropna`: each base 15m
row is paired with the last 1h row and the last 4h row at or before its
timestamp, and is dropped when either lookup has no eligible row. -/
def alignSeries (b15 o1h o4h : List IndRow) : List AlignedRow :=
  b15.filterMap (alignRow o1h o4h)

/-! ## Backtest portfolio simulator (`run_backtest` steps 4-5) -/

/-- A recorded trade: `{'time': ..., 'type': 'BUY'/'SELL', 'price': ...,`
`'amount': asset_bought}` or `{..., 'value': proceeds}`. -/
inductive TradeKind where
  | buyTrade : TradeKind
  | sellTrade : TradeKind
deriving DecidableEq

structure TradeRec where
  time : ℤ
  kind : TradeKind
  price : ℚ
  quantity : ℚ
deriving DecidableEq

/-- The mutable portfolio of the simulation loop: `cash`, `asset_held`,
`position` (`true` for `'IN'`, `false` for `'OUT'`), and the trade log. -/
structure PState where
  cash : ℚ
  asset_held : ℚ
  positionIn : Bool
  trades : List TradeRec
deriving DecidableEq

/-- The signal computed for one aligned row: the strategy's decision on the
dictionary `{'15m': row_15m, '1h': row_1h, '4h': row_4h}`. -/
def rowSignal (row : AlignedRow) : TradeSignal :=
  (get_signal ⟨row.r15.candle, row.r1h.candle, row.r4h.candle⟩).1

/-- One pass of the simulation loop (source lines 100-112): on BUY while
OUT, convert all cash to asset at the 15m close and log a buy; on SELL while
IN, convert all asset to cash at the 15m close and log a sell; otherwise the
row changes nothing. -/
def backtestStep (st : PState) (row : AlignedRow) : PState :=
  let sig := rowSignal row
  let current_price := row.r15.candle.close
  if sig = TradeSignal.BUY ∧ st.positionIn = false then
    { cash := 0, asset_held := st.cash / current_price, positionIn := true,
      trades := st.trades ++
        [⟨row.r15.timestamp, TradeKind.buyTrade, current_price, st.cash / current_price⟩] }
  else if sig = TradeSignal.SELL ∧ st.positionIn = true then
    { cash := st.asset_held * current_price, asset_held := 0, positionIn := false,
      trades := st.trades ++
        [⟨row.r15.timestamp, TradeKind.sellTrade, current_price,
          st.asset_held * current_price⟩] }
  else st

/-- The initial portfolio: all cash, position `'OUT'`, empty trade log. -/
def initPState (capital : ℚ) : PState := ⟨capital, 0, false, []⟩

/-- The whole simulation loop over the aligned rows. -/
def runSim (capital : ℚ) (rows : List AlignedRow) : PState :=
  rows.foldl backtestStep (initPState capital)

/-- The final report of `run_backtest` (source lines 114-132): final value is
cash when OUT, the asset marked to the last 15m close when still IN; profit
and percentage profit relative to starting capital; total trade count. -/
structure Report where
  final_value : ℚ
  profit : ℚ
  profit_percent : ℚ
  total_trades : ℕ
deriving DecidableEq

def lastClose15 (rows : List AlignedRow) : ℚ :=
  match rows.getLast? with
  | some r => r.r15.candle.close
  | none => 0

def runBacktestReport (capital : ℚ) (rows : List AlignedRow) : Report :=
  let st := runSim capital rows
  let final_value := if st.positionIn = true then st.asset_held * lastClose15 rows else st.cash
  { final_value := final_value,
    profit := final_value - capital,
    profit_percent := (final_value - capital) / capital * 100,
    total_trades := st.trades.length }

/-! ## Concrete inputs used by witnesses and counterexamples -/

/-- A bullish coarse-timeframe candle satisfying all BUY conditions. -/
def bullCandle : LatestCandle := ⟨3, 2, 1, 1, 50, 1, 10, 9, 0⟩

/-- A bullish 15m candle: close 10, `open_time` 42. -/
def buy15 : LatestCandle := ⟨3, 2, 1, 1, 50, 1, 10, 9, 42⟩

def buyLC : LatestCandles := ⟨buy15, bullCandle, bullCandle⟩

/-- A bearish coarse-timeframe candle satisfying all SELL conditions. -/
def bearCandle : LatestCandle := ⟨1, 2, 3, -1, 45, -1, 12, 13, 0⟩

/-- A bearish 15m candle: close 12, `open_time` 77. -/
def sell15 : LatestCandle := ⟨1, 2, 3, -1, 45, -1, 12, 13, 77⟩

def sellLC : LatestCandles := ⟨sell15, bearCandle, bearCandle⟩

/-- An aligned row on which the strategy signals BUY at 15m close 10. -/
def buyARow : AlignedRow := ⟨⟨100, buy15⟩, ⟨90, bullCandle⟩, ⟨80, bullCandle⟩⟩

/-- An aligned row on which the strategy signals SELL at 15m close 12. -/
def sellARow : AlignedRow := ⟨⟨200, sell15⟩, ⟨190, bearCandle⟩, ⟨180, bearCandle⟩⟩

def tradeRows : List AlignedRow := [buyARow, sellARow]

/-- An indicator row with a bare timestamp (the candle payload is irrelevant
to alignment). -/
def irBull (t : ℤ) : IndRow := ⟨t, bullCandle⟩

def wb15 : List IndRow := [irBull 10, irBull 20]

def wo1h : List IndRow := [irBull 5]

def wo4h : List IndRow := [irBull 0]

/-- The portfolio invariant tied to the position flag: OUT means all cash
and no asset, IN means no cash and a positive asset. -/
def portfolioOk (st : PState) : Prop :=
  (st.positionIn = false → 0 < st.cash ∧ st.asset_held = 0) ∧
  (st.positionIn = true → st.cash = 0 ∧ 0 < st.asset_held)

/-! # Theorems -/

/-- C10: the BUY predicate and the SELL predicate of `get_signal` can never
both be true on the same input (the `close > vwap_approx` versus
`close < vwap_approx` conjuncts are mutually exclusive), so at most one
non-HOLD decision is reachable for any complete latest-candle map. -/
theorem buy_sell_mutually_exclusive (lc : LatestCandles) :
    (buy_conditions lc && sell_conditions lc) = false := by
  by_cases h : lc.c15m.close < lc.c15m.vwap_approx
  · have h2 : ¬ (lc.c15m.close > lc.c15m.vwap_approx) := not_lt_of_gt h
    simp [buy_conditions, h2]
  · simp [sell_conditions, h]

/-- C2: for every latest-candle map containing the three required timeframes,
`get_signal` returns BUY if and only if the EMA ordering holds on 4h and 1h,
the supertrend direction is +1 on 4h, 1h and 15m, the 15m RSI lies in
[45, 65], the 15m money flow exceeds 0.1, and the 15m close exceeds the 15m
VWAP approximation; and the BUY return is exactly
`('BUY', '15m', 15m open_time)`. -/
theorem get_signal_buy_characterization (lc : LatestCandles) :
    ((get_signal lc).1 = TradeSignal.BUY ↔
      (lc.c4h.ema9 > lc.c4h.ema20 ∧ lc.c4h.ema20 > lc.c4h.ema50 ∧
       lc.c1h.ema9 > lc.c1h.ema20 ∧ lc.c1h.ema20 > lc.c1h.ema50 ∧
       lc.c4h.supertrend_direction = 1 ∧ lc.c1h.supertrend_direction = 1 ∧
       lc.c15m.supertrend_direction = 1 ∧
       45 ≤ lc.c15m.rsi14 ∧ lc.c15m.rsi14 ≤ 65 ∧
       lc.c15m.volume_avg20 > 1/10 ∧ lc.c15m.close > lc.c15m.vwap_approx)) ∧
    (get_signal lc = (TradeSignal.BUY, some "15m", some lc.c15m.open_time) ↔
      (lc.c4h.ema9 > lc.c4h.ema20 ∧ lc.c4h.ema20 > lc.c4h.ema50 ∧
       lc.c1h.ema9 > lc.c1h.ema20 ∧ lc.c1h.ema20 > lc.c1h.ema50 ∧
       lc.c4h.supertrend_direction = 1 ∧ lc.c1h.supertrend_direction = 1 ∧
       lc.c15m.supertrend_direction = 1 ∧
       45 ≤ lc.c15m.rsi14 ∧ lc.c15m.rsi14 ≤ 65 ∧
       lc.c15m.volume_avg20 > 1/10 ∧ lc.c15m.close > lc.c15m.vwap_approx)) := by
  have key : buy_conditions lc = true ↔
      (lc.c4h.ema9 > lc.c4h.ema20 ∧ lc.c4h.ema20 > lc.c4h.ema50 ∧
       lc.c1h.ema9 > lc.c1h.ema20 ∧ lc.c1h.ema20 > lc.c1h.ema50 ∧
       lc.c4h.supertrend_direction = 1 ∧ lc.c1h.supertrend_direction = 1 ∧
       lc.c15m.supertrend_direction = 1 ∧
       45 ≤ lc.c15m.rsi14 ∧ lc.c15m.rsi14 ≤ 65 ∧
       lc.c15m.volume_avg20 > 1/10 ∧ lc.c15m.close > lc.c15m.vwap_approx) := by
    simp only [buy_conditions, Bool.and_eq_true, decide_eq_true_eq, and_assoc]
  rw [← key]
  unfold get_signal
  by_cases hb : buy_conditions lc = true
  · simp [hb]
  · have hb2 : buy_conditions lc = false := by
      cases h : buy_conditions lc
      · rfl
      · exact absurd h hb
    rw [hb2]
    by_cases hs : sell_conditions lc = true <;> simp [hs]

/-- Witness for C2: a concrete bullish map on which `get_signal` returns the
BUY triple with the 15m `open_time`. -/
theorem get_signal_buy_characterization_wit :
    get_signal buyLC = (TradeSignal.BUY, some "15m", some 42) :=
  (get_signal_buy_characterization buyLC).2.mpr (by norm_num [buyLC, buy15, bullCandle])

/-- One carry-over step of the supertrend recurrence preserves the direction
and only tightens the active band: in an uptrend the stored lower band does
not fall, in a downtrend the stored upper band does not rise. -/
theorem stState_carry (rows : List HLC) (w : ℕ) (m : ℚ) (j : ℕ)
    (hc : carryOver rows w m (j + 1)) :
    (stState rows w m (j + 1)).in_uptrend = (stState rows w m j).in_uptrend ∧
    ((stState rows w m j).in_uptrend = true →
      (stState rows w m j).lower_band ≤ (stState rows w m (j + 1)).lower_band) ∧
    ((stState rows w m j).in_uptrend = false →
      (stState rows w m (j + 1)).upper_band ≤ (stState rows w m j).upper_band) := by
  obtain ⟨h1, h2⟩ := hc
  have hnotup : ¬ ((stState rows w m j).upper_band < closeAt rows (j + 1)) := not_lt.mpr h1
  have hnotdown : ¬ (closeAt rows (j + 1) < (stState rows w m j).lower_band) := not_lt.mpr h2
  rw [show stState rows w m (j + 1) =
      ⟨if (stState rows w m j).in_uptrend = false ∧
          (stState rows w m j).upper_band < basicUpper rows w m (j + 1) then
          (stState rows w m j).upper_band else basicUpper rows w m (j + 1),
        if (stState rows w m j).in_uptrend = true ∧
          basicLower rows w m (j + 1) < (stState rows w m j).lower_band then
          (stState rows w m j).lower_band else basicLower rows w m (j + 1),
        (stState rows w m j).in_uptrend⟩ from by
    rw [stState]
    simp only [if_neg hnotup, if_neg hnotdown]]
  refine ⟨rfl, ?_, ?_⟩
  · intro hup
    by_cases hlt : basicLower rows w m (j + 1) < (stState rows w m j).lower_band
    · simp only [hup, true_and, if_pos hlt]
      exact le_refl _
    · simp only [hup, true_and, if_neg hlt]
      exact le_of_not_lt hlt
  · intro hdown
    by_cases hgt : (stState rows w m j).upper_band < basicUpper rows w m (j + 1)
    · simp only [hdown, true_and, if_pos hgt]
      exact le_refl _
    · simp only [hdown, true_and, if_neg hgt]
      exact le_of_not_lt hgt

/-- C1 (amended): the supertrend recurrence sets direction up at index 0;
over any run of consecutive carry-over rows (each close neither above the
previous stored upper band nor below the previous stored lower band) the
direction is unchanged, and while it is up the stored lower band is
non-decreasing, while it is down the stored upper band is non-increasing. -/
theorem supertrend_ratchet (rows : List HLC) (w : ℕ) (m : ℚ) (i j : ℕ)
    (hij : i ≤ j) (hc : ∀ k, i < k → k ≤ j → carryOver rows w m k) :
    (stState rows w m 0).in_uptrend = true ∧
    (stState rows w m j).in_uptrend = (stState rows w m i).in_uptrend ∧
    ((stState rows w m i).in_uptrend = true →
      (stState rows w m i).lower_band ≤ (stState rows w m j).lower_band) ∧
    ((stState rows w m i).in_uptrend = false →
      (stState rows w m j).upper_band ≤ (stState rows w m i).upper_band) := by
  induction j with
  | zero =>
      have h0 : i = 0 := Nat.le_zero.mp hij
      subst h0
      exact ⟨rfl, rfl, fun _ => le_refl _, fun _ => le_refl _⟩
  | succ j ih =>
      rcases Nat.lt_or_ge i (j + 1) with hlt | hge
      · have hij2 : i ≤ j := Nat.lt_succ_iff.mp hlt
        have ih2 := ih hij2 (fun k hk1 hk2 => hc k hk1 (Nat.le_succ_of_le hk2))
        have step := stState_carry rows w m j (hc (j + 1) hlt (le_refl _))
        refine ⟨ih2.1, ?_, ?_, ?_⟩
        · rw [step.1, ih2.2.1]
        · intro hup
          have hupj : (stState rows w m j).in_uptrend = true := by
            rw [ih2.2.1]; exact hup
          exact le_trans (ih2.2.2.1 hup) (step.2.1 hupj)
        · intro hdown
          have hdj : (stState rows w m j).in_uptrend = false := by
            rw [ih2.2.1]; exact hdown
          exact le_trans (step.2.2 hdj) (ih2.2.2.2 hdown)
      · have heq : i = j + 1 := le_antisymm hij hge
        subst heq
        exact ⟨rfl, rfl, fun _ => le_refl _, fun _ => le_refl _⟩

/-- The ATR warm-up region: before index `w - 1` the `np.zeros` cells are
untouched, so the ATR is `0` there. -/
theorem atr_warmup (rows : List HLC) (w i : ℕ) (h : i + 1 < w) : atr rows w i = 0 := by
  cases i with
  | zero => rw [atr, if_pos (by omega)]
  | succ j => rw [atr, if_pos (by omega)]

theorem exRowsST_st0 : stState exRowsST 10 3 0 = ⟨10, 10, true⟩ := by
  rw [stState, basicUpper, basicLower, atr_warmup _ _ _ (by norm_num)]
  norm_num [highAt, lowAt, exRowsST]

theorem exRowsST_st1 : stState exRowsST 10 3 1 = ⟨20, 20, true⟩ := by
  rw [show (1 : ℕ) = 0 + 1 from rfl, stState, exRowsST_st0]
  rw [basicUpper, basicLower, atr_warmup _ _ _ (by norm_num)]
  norm_num [highAt, lowAt, closeAt, exRowsST]

theorem exRowsST_st2 : stState exRowsST 10 3 2 = ⟨15, 15, true⟩ := by
  rw [show (2 : ℕ) = 1 + 1 from rfl, stState, exRowsST_st1]
  rw [basicUpper, basicLower, atr_warmup _ _ _ (by norm_num)]
  norm_num [highAt, lowAt, closeAt, exRowsST]

/-- Counterexample to C1 as stated: on `exRowsST` (ATR window 10,
multiplier 3, like the source defaults) the direction is up at indices 0, 1
and 2 — a run whose direction stays up — yet the stored lower band strictly
decreases from index 1 to index 2, because index 2 is a fresh up-trigger
(`close > previous upper band`), to which the ratchet does not apply. -/
theorem supertrend_ratchet_cex :
    (stState exRowsST 10 3 0).in_uptrend = true ∧
    (stState exRowsST 10 3 1).in_uptrend = true ∧
    (stState exRowsST 10 3 2).in_uptrend = true ∧
    (stState exRowsST 10 3 2).lower_band < (stState exRowsST 10 3 1).lower_band := by
  rw [exRowsST_st0, exRowsST_st1, exRowsST_st2]
  norm_num

theorem rowsConst_st0 : stState rowsConst 10 3 0 = ⟨10, 10, true⟩ := by
  rw [stState, basicUpper, basicLower, atr_warmup _ _ _ (by norm_num)]
  norm_num [highAt, lowAt, rowsConst]

theorem rowsConst_st1 : stState rowsConst 10 3 1 = ⟨10, 10, true⟩ := by
  rw [show (1 : ℕ) = 0 + 1 from rfl, stState, rowsConst_st0]
  rw [basicUpper, basicLower, atr_warmup _ _ _ (by norm_num)]
  norm_num [highAt, lowAt, closeAt, rowsConst]

/-- Witness for C1 (amended), on a constant series where every step is a
carry-over step. -/
theorem supertrend_ratchet_wit :
    (stState rowsConst 10 3 0).in_uptrend = true ∧
    (stState rowsConst 10 3 2).in_uptrend = (stState rowsConst 10 3 0).in_uptrend ∧
    (stState rowsConst 10 3 0).lower_band ≤ (stState rowsConst 10 3 2).lower_band := by
  have h := supertrend_ratchet rowsConst 10 3 0 2 (by norm_num)
    (fun k h1 h2 => by
      interval_cases k
      · rw [carryOver, show (1 : ℕ) - 1 = 0 from rfl, rowsConst_st0]
        norm_num [closeAt, rowsConst]
      · rw [carryOver, show (2 : ℕ) - 1 = 1 from rfl, rowsConst_st1]
        norm_num [closeAt, rowsConst])
  exact ⟨h.1, h.2.1, h.2.2.1 h.1⟩

/-- Upserting the same candle twice leaves the store as after one upsert. -/
theorem upsert_upsert (store : List Kline) (c : Kline) :
    upsert (upsert store c) c = upsert store c := by
  unfold upsert
  by_cases h : store.any (fun r => r.open_time = c.open_time) = true
  · rw [if_pos h]
    have h2 : (store.map fun r => if r.open_time = c.open_time then c else r).any
        (fun r => r.open_time = c.open_time) = true := by
      rcases List.any_eq_true.mp h with ⟨r, hr, hrk⟩
      refine List.any_eq_true.mpr ⟨c, List.mem_map.mpr ⟨r, hr, ?_⟩, by simp⟩
      simp [of_decide_eq_true hrk]
    rw [if_pos h2, List.map_map]
    congr 1
    funext r
    by_cases hr : r.open_time = c.open_time <;> simp [hr]
  · have hfalse : store.any (fun r => r.open_time = c.open_time) = false :=
      Bool.eq_false_iff.mpr h
    rw [if_neg h]
    have h2 : (store ++ [c]).any (fun r => r.open_time = c.open_time) = true := by simp
    rw [if_pos h2, List.map_append]
    have hall := List.any_eq_false.mp hfalse
    have h3 : store.map (fun r => if r.open_time = c.open_time then c else r) = store := by
      conv_rhs => rw [← List.map_id store]
      apply List.map_congr_left
      intro r hr
      have hne : ¬ r.open_time = c.open_time := by simpa using hall r hr
      simp [hne]
    rw [h3]
    simp

/-- C7: the candle upsert is idempotent — applying it `n + 1 ≥ 1` times
equals applying it once; it inserts when the `open_time` key is absent and
overwrites the row's fields when present; and a duplicate upsert of the row
at `open_time = 1` into the 3-row store with open_times `[0, 1, 2]` leaves
exactly the same 3 rows. -/
theorem upsert_idempotent (store : List Kline) (c : Kline) (n : ℕ) :
    (fun st => upsert st c)^[n + 1] store = upsert store c ∧
    (store.any (fun r => r.open_time = c.open_time) = false →
      upsert store c = store ++ [c]) ∧
    (store.any (fun r => r.open_time = c.open_time) = true →
      upsert store c = store.map (fun r => if r.open_time = c.open_time then c else r)) ∧
    upsert store3 krow1 = store3 ∧
    (upsert store3 krow1).length = 3 := by
  have hscen : upsert store3 krow1 = store3 := by
    rw [upsert, if_pos (by norm_num [store3, krow0, krow1, krow2])]
    norm_num [store3, krow0, krow1, krow2, Kline.mk.injEq]
  refine ⟨?_, ?_, ?_, hscen, by rw [hscen]; rfl⟩
  · induction n with
    | zero => rfl
    | succ k ih =>
        rw [Function.iterate_succ_apply', ih, upsert_upsert]
  · intro hab
    rw [upsert, if_neg (by rw [hab]; exact Bool.false_ne_true)]
  · intro hpres
    rw [upsert, if_pos hpres]

/-- Witness for C7: two upserts of the duplicate row into the 3-row store
equal one upsert. -/
theorem upsert_idempotent_wit :
    (fun st => upsert st krow1)^[2] store3 = upsert store3 krow1 :=
  (upsert_idempotent store3 krow1 1).1

/-- A signal-store write with an already-present key is a no-op. -/
theorem store_signal_present (st : List StoredSignal) (sym sig strat tf : String) (klt : ℤ)
    (h : st.any (fun r => sameKeyB r sym strat tf klt) = true) :
    store_signal st sym sig strat tf klt = st := by
  rw [store_signal, if_pos h]

/-- C5: starting from a store with no row for the key
`(symbol, strategy, timeframe, kline_open_time)`, invoking the signal-store
write path `n + 1 ≥ 1` times with that key leaves exactly one stored row
with that key (the state equals one append), and the write path no-ops on
any store that already holds the key. -/
theorem signal_dedup (store : List StoredSignal) (sym sig strat tf : String) (klt : ℤ)
    (n : ℕ) (hfresh : store.any (fun r => sameKeyB r sym strat tf klt) = false) :
    (fun st => store_signal st sym sig strat tf klt)^[n + 1] store =
      store ++ [⟨sym, sig, strat, tf, klt⟩] ∧
    ((fun st => store_signal st sym sig strat tf klt)^[n + 1] store).countP
      (fun r => sameKeyB r sym strat tf klt) = 1 ∧
    ∀ st2 : List StoredSignal, st2.any (fun r => sameKeyB r sym strat tf klt) = true →
      store_signal st2 sym sig strat tf klt = st2 := by
  have hkeynew : sameKeyB ⟨sym, sig, strat, tf, klt⟩ sym strat tf klt = true := by
    simp [sameKeyB]
  have honce : store_signal store sym sig strat tf klt =
      store ++ [⟨sym, sig, strat, tf, klt⟩] := by
    rw [store_signal, if_neg (by rw [hfresh]; exact Bool.false_ne_true)]
  have hiter : (fun st => store_signal st sym sig strat tf klt)^[n + 1] store =
      store ++ [⟨sym, sig, strat, tf, klt⟩] := by
    induction n with
    | zero => exact honce
    | succ k ih =>
        rw [Function.iterate_succ_apply', ih]
        apply store_signal_present
        simp [hkeynew]
  refine ⟨hiter, ?_, fun st2 h2 => store_signal_present st2 sym sig strat tf klt h2⟩
  rw [hiter, List.countP_append]
  have hz : store.countP (fun r => sameKeyB r sym strat tf klt) = 0 :=
    List.countP_eq_zero.mpr (by simpa using List.any_eq_false.mp hfresh)
  rw [hz]
  simp [List.countP, List.countP.go, hkeynew]

/-- Witness for C5: two writes of the same signal key into the empty store
leave exactly the single appended row. -/
theorem signal_dedup_wit :
    (fun st => store_signal st "BTCUSDT" "BUY" "enhanced_trend_master" "15m" 42)^[2] [] =
      [⟨"BTCUSDT", "BUY", "enhanced_trend_master", "15m", 42⟩] :=
  (signal_dedup [] "BTCUSDT" "BUY" "enhanced_trend_master" "15m" 42 1 rfl).1

/-- C6: the backfill loop's contract — the starting watermark is
`max stored open_time + 1` when the store is non-empty and
`now - backfill_days` (in ms) when it is empty; a fetch pass with a
non-empty page upserts every row of the page in order and advances the
watermark to `last fetched open_time + 1`; and the loop stops after a pass
exactly when the page was empty (stopping before any upsert) or shorter
than the page capacity `KLINE_LIMIT`, and otherwise fetches again at the
advanced watermark. -/
theorem backfill_contract (fetch : ℤ → List Kline) (store : List Kline)
    (start now_ms days : ℤ) (fuel : ℕ) :
    (∀ t : ℤ, (store.map (fun r => r.open_time)).max? = some t →
      initWatermark store now_ms days = t + 1) ∧
    ((store.map (fun r => r.open_time)).max? = none →
      initWatermark store now_ms days = now_ms - days * MS_PER_DAY) ∧
    (fetch start = [] → backfillLoop fetch (fuel + 1) store start = (store, start)) ∧
    (fetch start ≠ [] → (fetch start).length < KLINE_LIMIT →
      backfillLoop fetch (fuel + 1) store start =
        ((fetch start).foldl upsert store, ((fetch start).getLastD kline0).open_time + 1)) ∧
    (fetch start ≠ [] → KLINE_LIMIT ≤ (fetch start).length →
      backfillLoop fetch (fuel + 1) store start =
        backfillLoop fetch fuel ((fetch start).foldl upsert store)
          (((fetch start).getLastD kline0).open_time + 1)) := by
  refine ⟨?_, ?_, ?_, ?_, ?_⟩
  · intro t ht
    rw [initWatermark, ht]
  · intro ht
    rw [initWatermark, ht]
  · intro hempty
    rw [backfillLoop]
    simp [hempty]
  · intro hne hlt
    rw [backfillLoop]
    simp only [if_neg hne, if_pos hlt]
  · intro hne hge
    rw [backfillLoop]
    simp only [if_neg hne, if_neg (Nat.not_lt.mpr hge)]

/-- Witness for C6: fetching an empty page terminates immediately with the
store and watermark unchanged. -/
theorem backfill_contract_wit :
    backfillLoop (fun _ => []) 1 [] 5 = ([], 5) :=
  (backfill_contract (fun _ => []) [] 5 0 60 0).2.2.1 rfl

/-- A successful as-of lookup returns a member of the other series whose
timestamp is at or before the requested time. -/
theorem lastLE_mem_le (others : List IndRow) (t : ℤ) (r : IndRow)
    (h : lastLE others t = some r) : r ∈ others ∧ r.timestamp ≤ t := by
  unfold lastLE at h
  obtain ⟨hne, heq⟩ := List.mem_getLast?_eq_getLast (Option.mem_def.mpr h)
  have hmem : r ∈ others.filter (fun x => decide (x.timestamp ≤ t)) := by
    rw [heq]
    exact List.getLast_mem hne
  exact ⟨List.mem_of_mem_filter hmem, by simpa using List.of_mem_filter hmem⟩

/-- When the other series holds some row at or before the requested time,
the as-of lookup succeeds. -/
theorem lastLE_isSome (others : List IndRow) (t : ℤ) (r : IndRow)
    (hr : r ∈ others) (hrt : r.timestamp ≤ t) : ∃ s, lastLE others t = some s := by
  unfold lastLE
  have hmem : r ∈ others.filter (fun x => decide (x.timestamp ≤ t)) :=
    List.mem_filter.mpr ⟨hr, by simpa⟩
  exact ⟨_, List.getLast?_eq_getLast_of_ne_nil (List.ne_nil_of_mem hmem)⟩

/-- Inversion of a successful per-row alignment. -/
theorem alignRow_eq_some (o1h o4h : List IndRow) (b : IndRow) (row : AlignedRow)
    (h : alignRow o1h o4h b = some row) :
    row.r15 = b ∧ lastLE o1h b.timestamp = some row.r1h ∧
      lastLE o4h b.timestamp = some row.r4h := by
  unfold alignRow at h
  cases h1 : lastLE o1h b.timestamp with
  | none => rw [h1] at h; simp at h
  | some r1 =>
      cases h4 : lastLE o4h b.timestamp with
      | none => rw [h1, h4] at h; simp at h
      | some r4 =>
          rw [h1, h4] at h
          simp only [Option.some.injEq] at h
          subst h
          exact ⟨rfl, rfl, rfl⟩

/-- The base components of the aligned output form a sublist of the base
series. -/
theorem alignSeries_sublist (b15 o1h o4h : List IndRow) :
    ((alignSeries b15 o1h o4h).map (fun row => row.r15)).Sublist b15 := by
  induction b15 with
  | nil => simp [alignSeries]
  | cons b bs ih =>
      simp only [alignSeries, List.filterMap_cons] at ih ⊢
      cases hb : alignRow o1h o4h b with
      | none => exact List.Sublist.cons b ih
      | some row =>
          rw [List.map_cons, (alignRow_eq_some o1h o4h b row hb).1]
          exact List.Sublist.cons₂ b ih

/-- C3: the backtest alignment never pairs a base row with a coarser row
whose timestamp is in its future; a base row appears in the output exactly
when every required coarser series has an eligible row at or before its
timestamp; and the output preserves the base series' ascending order (its
base components are a sublist of the base series, ordered whenever the base
is). -/
theorem align_no_lookahead (b15 o1h o4h : List IndRow)
    (hsorted : b15.Pairwise (fun x y => x.timestamp ≤ y.timestamp)) :
    (∀ row ∈ alignSeries b15 o1h o4h,
      row.r1h.timestamp ≤ row.r15.timestamp ∧ row.r4h.timestamp ≤ row.r15.timestamp) ∧
    (∀ b ∈ b15,
      (((∃ r ∈ o1h, r.timestamp ≤ b.timestamp) ∧ (∃ r ∈ o4h, r.timestamp ≤ b.timestamp)) ↔
        ∃ row ∈ alignSeries b15 o1h o4h, row.r15 = b)) ∧
    ((alignSeries b15 o1h o4h).map (fun row => row.r15)).Sublist b15 ∧
    (alignSeries b15 o1h o4h).Pairwise (fun x y => x.r15.timestamp ≤ y.r15.timestamp) := by
  refine ⟨?_, ?_, alignSeries_sublist b15 o1h o4h, ?_⟩
  · intro row hrow
    obtain ⟨b, _, hfb⟩ := List.mem_filterMap.mp hrow
    obtain ⟨h15, h1, h4⟩ := alignRow_eq_some o1h o4h b row hfb
    subst h15
    exact ⟨(lastLE_mem_le o1h row.r15.timestamp row.r1h h1).2,
           (lastLE_mem_le o4h row.r15.timestamp row.r4h h4).2⟩
  · intro b hb
    constructor
    · rintro ⟨⟨r1, hr1, ht1⟩, ⟨r4, hr4, ht4⟩⟩
      obtain ⟨s1, hs1⟩ := lastLE_isSome o1h b.timestamp r1 hr1 ht1
      obtain ⟨s4, hs4⟩ := lastLE_isSome o4h b.timestamp r4 hr4 ht4
      refine ⟨⟨b, s1, s4⟩, List.mem_filterMap.mpr ⟨b, hb, ?_⟩, rfl⟩
      unfold alignRow
      rw [hs1, hs4]
    · rintro ⟨row, hrow, heq⟩
      obtain ⟨b2, _, hfb⟩ := List.mem_filterMap.mp hrow
      obtain ⟨h15, h1, h4⟩ := alignRow_eq_some o1h o4h b2 row hfb
      have hbb : b2 = b := by rw [← h15, heq]
      subst hbb
      rw [← heq] at h1 h4
      exact ⟨⟨row.r1h, (lastLE_mem_le _ _ _ h1).1, h15 ▸ (lastLE_mem_le _ _ _ h1).2⟩,
             ⟨row.r4h, (lastLE_mem_le _ _ _ h4).1, h15 ▸ (lastLE_mem_le _ _ _ h4).2⟩⟩
  · have h1 : ((alignSeries b15 o1h o4h).map (fun row => row.r15)).Pairwise
        (fun x y => x.timestamp ≤ y.timestamp) :=
      List.Pairwise.sublist (alignSeries_sublist b15 o1h o4h) hsorted
    exact List.Pairwise.of_map (fun row => row.r15) (fun a b h => h) h1

/-- Witness for C3: on concrete sorted series the aligned output's base
components form a sublist of the base series. -/
theorem align_no_lookahead_wit :
    ((alignSeries wb15 wo1h wo4h).map (fun row => row.r15)).Sublist wb15 :=
  (align_no_lookahead wb15 wo1h wo4h (by norm_num [wb15, irBull])).2.2.1

/-- A simulation step on a row whose signal is HOLD changes nothing. -/
theorem backtestStep_hold (st : PState) (row : AlignedRow)
    (hsig : rowSignal row = TradeSignal.HOLD) : backtestStep st row = st := by
  simp [backtestStep, hsig]

/-- Folding the simulation over rows that all signal HOLD changes nothing. -/
theorem foldl_hold (rows : List AlignedRow) (st : PState)
    (h : ∀ r ∈ rows, rowSignal r = TradeSignal.HOLD) :
    rows.foldl backtestStep st = st := by
  induction rows generalizing st with
  | nil => rfl
  | cons r rs ih =>
      rw [List.foldl_cons, backtestStep_hold st r (h r (List.mem_cons_self r rs))]
      exact ih st (fun x hx => h x (List.mem_cons_of_mem r hx))

/-- A BUY step from the OUT state converts all cash to asset at the 15m
close and logs the buy. -/
theorem backtestStep_buy (st : PState) (row : AlignedRow)
    (hsig : rowSignal row = TradeSignal.BUY) (hout : st.positionIn = false) :
    backtestStep st row =
      ⟨0, st.cash / row.r15.candle.close, true,
        st.trades ++ [⟨row.r15.timestamp, TradeKind.buyTrade, row.r15.candle.close,
          st.cash / row.r15.candle.close⟩]⟩ := by
  simp [backtestStep, hsig, hout]

/-- A SELL step from the IN state converts all asset to cash at the 15m
close and logs the sell. -/
theorem backtestStep_sell (st : PState) (row : AlignedRow)
    (hsig : rowSignal row = TradeSignal.SELL) (hin : st.positionIn = true) :
    backtestStep st row =
      ⟨st.asset_held * row.r15.candle.close, 0, false,
        st.trades ++ [⟨row.r15.timestamp, TradeKind.sellTrade, row.r15.candle.close,
          st.asset_held * row.r15.candle.close⟩]⟩ := by
  simp [backtestStep, hsig, hin]

/-- Each simulation step preserves the portfolio invariant when the traded
price is positive. -/
theorem backtestStep_preserves (st : PState) (row : AlignedRow)
    (hprice : 0 < row.r15.candle.close) (h : portfolioOk st) :
    portfolioOk (backtestStep st row) := by
  simp only [backtestStep]
  split_ifs with h1 h2
  · obtain ⟨_, hout⟩ := h1
    obtain ⟨hcash, _⟩ := h.1 hout
    exact ⟨fun hf => absurd hf (by simp), fun _ => ⟨rfl, div_pos hcash hprice⟩⟩
  · obtain ⟨_, hin⟩ := h2
    obtain ⟨_, hasset⟩ := h.2 hin
    exact ⟨fun _ => ⟨mul_pos hasset hprice, rfl⟩, fun ht => absurd ht (by simp)⟩
  · exact h

/-- Folding the simulation preserves the portfolio invariant when every
traded price is positive. -/
theorem foldl_preserves (rows : List AlignedRow) (st : PState)
    (hprices : ∀ r ∈ rows, 0 < r.r15.candle.close) (h : portfolioOk st) :
    portfolioOk (rows.foldl backtestStep st) := by
  induction rows generalizing st with
  | nil => exact h
  | cons r rs ih =>
      rw [List.foldl_cons]
      exact ih (backtestStep st r)
        (fun x hx => hprices x (List.mem_cons_of_mem r hx))
        (backtestStep_preserves st r (hprices r (List.mem_cons_self r rs)) h)

/-- C4: for positive starting capital and positive 15m close prices, after
the simulation loop has processed any prefix of the aligned series, exactly
one of {cash > 0 and asset_held = 0} (OUT) or {cash = 0 and asset_held > 0}
(IN) holds — never both positive, never both zero. -/
theorem portfolio_invariant (capital : ℚ) (rows : List AlignedRow) (i : ℕ)
    (hcap : 0 < capital) (hprices : ∀ r ∈ rows, 0 < r.r15.candle.close) :
    (0 < (runSim capital (rows.take i)).cash ∧
      (runSim capital (rows.take i)).asset_held = 0) ∨
    ((runSim capital (rows.take i)).cash = 0 ∧
      0 < (runSim capital (rows.take i)).asset_held) := by
  have h := foldl_preserves (rows.take i) (initPState capital)
    (fun r hr => hprices r (List.take_subset i rows hr))
    ⟨fun _ => ⟨hcap, rfl⟩, fun ht => by simp [initPState] at ht⟩
  rw [runSim]
  cases hpos : ((rows.take i).foldl backtestStep (initPState capital)).positionIn with
  | false => exact Or.inl (h.1 hpos)
  | true => exact Or.inr (h.2 hpos)

/-- Witness for C4: the invariant instantiated on the two-row buy/sell
series with capital 1000 after both rows. -/
theorem portfolio_invariant_wit :
    (0 < (runSim 1000 (tradeRows.take 2)).cash ∧
      (runSim 1000 (tradeRows.take 2)).asset_held = 0) ∨
    ((runSim 1000 (tradeRows.take 2)).cash = 0 ∧
      0 < (runSim 1000 (tradeRows.take 2)).asset_held) :=
  portfolio_invariant 1000 tradeRows 2 (by norm_num)
    (by
      intro r hr
      fin_cases hr <;> norm_num [buyARow, sellARow, buy15, sell15])

/-- C8: a backtest with starting capital 1000 over an aligned series whose
signal sequence holds exactly one BUY at 15m close 10 followed by exactly
one SELL at 15m close 12 (all other rows HOLD) ends OUT with final value
1200, reported profit 20 percent, and a trade log of exactly the buy and
the sell. -/
theorem single_trade_scenario (a c d : List AlignedRow) (b s : AlignedRow)
    (ha : ∀ r ∈ a, rowSignal r = TradeSignal.HOLD)
    (hc : ∀ r ∈ c, rowSignal r = TradeSignal.HOLD)
    (hd : ∀ r ∈ d, rowSignal r = TradeSignal.HOLD)
    (hb : rowSignal b = TradeSignal.BUY) (hbp : b.r15.candle.close = 10)
    (hs : rowSignal s = TradeSignal.SELL) (hsp : s.r15.candle.close = 12) :
    (runBacktestReport 1000 (a ++ b :: (c ++ s :: d))).final_value = 1200 ∧
    (runBacktestReport 1000 (a ++ b :: (c ++ s :: d))).profit_percent = 20 ∧
    (runBacktestReport 1000 (a ++ b :: (c ++ s :: d))).total_trades = 2 ∧
    (runSim 1000 (a ++ b :: (c ++ s :: d))).trades.map (fun t => t.kind) =
      [TradeKind.buyTrade, TradeKind.sellTrade] := by
  have hsim : runSim 1000 (a ++ b :: (c ++ s :: d)) =
      ⟨1200, 0, false,
        [⟨b.r15.timestamp, TradeKind.buyTrade, 10, 100⟩,
         ⟨s.r15.timestamp, TradeKind.sellTrade, 12, 1200⟩]⟩ := by
    rw [runSim, List.foldl_append, foldl_hold a (initPState 1000) ha, List.foldl_cons]
    rw [backtestStep_buy (initPState 1000) b hb rfl]
    rw [List.foldl_append]
    rw [foldl_hold c _ hc, List.foldl_cons]
    rw [backtestStep_sell _ s hs rfl]
    rw [foldl_hold d _ hd]
    rw [hbp, hsp]
    rw [initPState]
    norm_num
  refine ⟨?_, ?_, ?_, ?_⟩
  · rw [runBacktestReport]
    rw [hsim]
    norm_num
  · rw [runBacktestReport]
    rw [hsim]
    norm_num
  · rw [runBacktestReport]
    rw [hsim]
    rfl
  · rw [hsim]
    rfl

/-- Witness for C8: the scenario instantiated on a concrete two-row aligned
series. -/
theorem single_trade_scenario_wit :
    (runBacktestReport 1000 tradeRows).final_value = 1200 ∧
    (runBacktestReport 1000 tradeRows).profit_percent = 20 ∧
    (runBacktestReport 1000 tradeRows).total_trades = 2 ∧
    (runSim 1000 tradeRows).trades.map (fun t => t.kind) =
      [TradeKind.buyTrade, TradeKind.sellTrade] :=
  single_trade_scenario [] [] [] buyARow sellARow
    (by intro r hr; cases hr) (by intro r hr; cases hr) (by intro r hr; cases hr)
    (by norm_num [rowSignal, get_signal, buy_conditions, buyARow, buy15, bullCandle])
    (by norm_num [buyARow, buy15])
    (by norm_num [rowSignal, get_signal, buy_conditions, sell_conditions,
      sellARow, sell15, bearCandle])
    (by norm_num [sellARow, sell15])

/-- C9 (amended): for each strategy period the EMA column equals the
exponential recurrence with `alpha = 2 / (p + 1)` seeded at index 0 by the
first close — not an SMA-seeded one — with the first `p - 1` entries
undefined (`min_periods = p`). -/
theorem ema_code_recurrence (closes : List ℚ) (p i : ℕ)
    (hp : p = 9 ∨ p = 20 ∨ p = 50) :
    ema_column closes p i =
      if i + 1 < p then none else some (emaRecFrom0 closes p i) := by
  clear hp
  have key : ∀ j, ewm_adjust_false closes (2 / ((p : ℚ) + 1)) j = emaRecFrom0 closes p j := by
    intro j
    induction j with
    | zero => rfl
    | succ k ih =>
        rw [ewm_adjust_false, emaRecFrom0, ih]
        ring
  rw [ema_column, key]

/-- Counterexample to C9 as stated: for period 9 over the series
`[1, 0, 0, 0, 0, 0, 0, 0, 0]` the stored EMA value at index 8 (the first
defined row) is `(4/5)^8`, strictly greater than the SMA-seeded value `1/9`
that the claim prescribes. -/
theorem ema_seed_cex :
    ema_column closes9 9 8 = some (ewm_adjust_false closes9 (2 / ((9 : ℚ) + 1)) 8) ∧
    emaSpecSeeded closes9 9 8 < ewm_adjust_false closes9 (2 / ((9 : ℚ) + 1)) 8 := by
  constructor
  · rw [ema_column, if_neg (by norm_num)]
    norm_num
  · have hspec : emaSpecSeeded closes9 9 8 = 1/9 := by
      rw [show (8 : ℕ) = 7 + 1 from rfl, emaSpecSeeded, if_pos (by norm_num)]
      norm_num [smaFirst, closes9]
    have hcode : ewm_adjust_false closes9 (2 / ((9 : ℚ) + 1)) 8 = 65536 / 390625 := by
      norm_num [ewm_adjust_false, closes9]
    rw [hspec, hcode]
    norm_num

/-- Witness for C9 (amended): at period 9, index 8 of the concrete series
the EMA column equals the seeded-at-0 recurrence. -/
theorem ema_code_recurrence_wit :
    ema_column closes9 9 8 = some (emaRecFrom0 closes9 9 8) := by
  have h := ema_code_recurrence closes9 9 8 (Or.inl rfl)
  rw [if_neg (by norm_num)] at h
  exact h

end Aintrade
